import Mathlib

/-!
Verification of the video-shorts repository against its specification.

The repository contains the web front end (Next.js) and deployment
scripts; the asynchronous multi-stage media pipeline described by the
specification is not present as code, so it is modelled here from the
spec's words (each such definition carries a doc comment starting with
"Modelled from the spec:").  The front-end helpers `authFetch`,
`getAuthToken` and `formatTime` are embedded directly from the source
files `src/frontend/src/lib/auth.ts` and
`src/frontend/src/components/TranscriptPanel.tsx`.
-/

namespace VideoShorts

/-! ## Front-end embedding: auth.ts -/

/-- A JavaScript headers object, modelled as a finite partial map from
header names to values (JS object property access semantics). -/
def HeaderMap : Type := String → Option String

/-- JS property assignment `obj[k] = v`. -/
def setHeader (h : HeaderMap) (k v : String) : HeaderMap :=
  fun k2 => if k2 = k then some v else h k2

/-- A JavaScript `RequestInit`-style options value as used by `authFetch`:
the method, the body and the headers object. -/
structure RequestInit where
  method : Option String
  body : Option String
  headers : HeaderMap

/-- The request that the underlying `fetch` is ultimately issued with. -/
structure SentRequest where
  url : String
  method : Option String
  body : Option String
  headers : HeaderMap

/-- Embedded from `auth.ts` `getAuthToken`.  The ambient effect of
`fetch("/api/auth/session")` followed by `.json()` is abstracted as the
input `sessionFetch`: `none` when the fetch (or JSON parse) throws, and
`some tok` when it yields a session whose `accessToken` field is `tok`
(`none` for an absent or null field, `some s` for a string, possibly
empty).  The JS expression `session?.accessToken || null` maps every
falsy value, including the empty string, to `null`; a thrown error is
caught and yields `null`. -/
def getAuthToken (sessionFetch : Option (Option String)) : Option String :=
  match sessionFetch with
  | none => none
  | some tokenField =>
    match tokenField with
    | none => none
    | some s => if s = "" then none else some s

/-- Embedded from `auth.ts` `authFetch`: copies the caller's headers,
sets `Authorization` to `Bearer <token>` when the token is truthy
(the `if (token)` guard, under which the empty string is falsy), and
issues the fetch with the caller's options and the resulting headers. -/
def authFetch (url : String) (options : RequestInit)
    (sessionFetch : Option (Option String)) : SentRequest :=
  let token := getAuthToken sessionFetch
  let headers := options.headers
  let headers2 :=
    match token with
    | some t => if t = "" then headers else setHeader headers "Authorization" ("Bearer " ++ t)
    | none => headers
  { url := url, method := options.method, body := options.body, headers := headers2 }

/-! ## Front-end embedding: TranscriptPanel.tsx -/

/-- JavaScript `Math.trunc` on an (idealised, rational) JS number:
rounds toward zero. -/
def jsTrunc (q : ℚ) : ℤ :=
  if 0 ≤ q then ⌊q⌋ else ⌈q⌉

/-- The JavaScript `%` operator on numbers: `a - b * trunc(a / b)`
(remainder with the sign of the dividend), on idealised rationals. -/
def jsMod (a b : ℚ) : ℚ :=
  a - b * (jsTrunc (a / b) : ℚ)

/-- JavaScript `String.prototype.padStart(n, c)`: pad on the left with
`c` up to length `n`. -/
def jsPadStart (s : String) (n : Nat) (c : Char) : String :=
  String.mk (List.replicate (n - s.length) c) ++ s

/-- Embedded from `TranscriptPanel.tsx` `formatTime`:
`Math.floor(seconds / 60)`, a colon, and `Math.floor(seconds % 60)`
rendered with `.toString().padStart(2, "0")`. -/
def formatTime (seconds : ℚ) : String :=
  let m : ℤ := ⌊seconds / 60⌋
  let s : ℤ := ⌊jsMod seconds 60⌋
  toString m ++ ":" ++ jsPadStart (toString s) 2 '0'

/-- The claim's own formula for `formatTime`: floor(seconds/60), a
colon, then floor(seconds mod 60) left-padded with zero to two digits,
where `mod` is the mathematical (floor-based) remainder. -/
def specFormatTime (seconds : ℚ) : String :=
  toString ⌊seconds / 60⌋ ++ ":" ++
    jsPadStart (toString ⌊seconds - 60 * (⌊seconds / 60⌋ : ℚ)⌋) 2 '0'

/-! ## Pipeline model, modelled from the spec (the processing engine is
not present in the repository; only its contract is). -/

/-- Modelled from the spec: the job status enumeration of the state
machine in section 4.6. -/
inductive StatusKind
  | pending
  | transcribing
  | finding_hook
  | cropping
  | rendering
  | completed
  | failed
deriving DecidableEq, Repr

/-- Modelled from the spec: the error kinds of sections 4.6 and 7. -/
inductive ErrorKind
  | invalid_input
  | transcription_error
  | render_error
  | cancelled
  | internal_error
deriving DecidableEq, Repr

/-- Position of a status in the forward stage order. -/
def stageIdx : StatusKind → Nat
  | .pending => 0
  | .transcribing => 1
  | .finding_hook => 2
  | .cropping => 3
  | .rendering => 4
  | .completed => 5
  | .failed => 6

/-- Terminal statuses: completed and failed. -/
def isTerminal : StatusKind → Bool
  | .completed => true
  | .failed => true
  | _ => false

/-- Modelled from the spec: the transition relation of the job status
state machine (section 4.6): strictly forward through the stage order,
and any non-terminal state may move to failed. -/
inductive SpecStep : StatusKind → StatusKind → Prop
  | pending_transcribing : SpecStep .pending .transcribing
  | transcribing_finding : SpecStep .transcribing .finding_hook
  | finding_cropping : SpecStep .finding_hook .cropping
  | cropping_rendering : SpecStep .cropping .rendering
  | rendering_completed : SpecStep .rendering .completed
  | to_failed (s : StatusKind) (h : isTerminal s = false) : SpecStep s .failed

/-- Modelled from the spec: the Job record of section 3 (the fields the
claims are about). -/
structure Job where
  status : StatusKind
  progress : Nat
  output_path : Option String
  error : Option (ErrorKind × String)
deriving DecidableEq, Repr

/-- Modelled from the spec: the progress band owned by each stage
(section 4.1): transcribing 0 to 25, finding_hook 25 to 45, cropping 45
to 80, rendering 80 to 100. -/
def bandLo : StatusKind → Nat
  | .transcribing => 0
  | .finding_hook => 25
  | .cropping => 45
  | .rendering => 80
  | _ => 0

/-- Upper end of each stage's progress band. -/
def bandHi : StatusKind → Nat
  | .transcribing => 25
  | .finding_hook => 45
  | .cropping => 80
  | .rendering => 100
  | _ => 0

/-- Modelled from the spec: within-stage progress (section 4.1): after
k of n sub-work units of stage st, progress interpolates the stage's
band. -/
def stageProg (st : StatusKind) (k n : Nat) : Nat :=
  bandLo st + (bandHi st - bandLo st) * k / n

/-- Modelled from the spec: the outcome of executing one stage (after
the internal retry loop): success after n sub-work units, or failure
after doneUnits of n units with an error descriptor. -/
inductive StageOutcome
  | success (n : Nat)
  | failure (doneUnits n : Nat) (kind : ErrorKind) (msg : String)
deriving DecidableEq, Repr

/-- Whether a stage outcome is a success. -/
def outcomeOk : StageOutcome → Bool
  | .success _ => true
  | .failure _ _ _ _ => false

/-- The job states persisted while one stage runs: entry at the band's
low end, then one snapshot per completed sub-work unit (k = 0 is the
entry snapshot since stageProg st 0 n = bandLo st). -/
def stageSnaps (j : Job) (st : StatusKind) (n upto : Nat) : List Job :=
  (List.range (upto + 1)).map
    (fun k => { j with status := st, progress := stageProg st k n })

/-- Modelled from the spec: the orchestrator loop of section 4.1,
driving a job through the remaining stages and emitting the sequence of
job states persisted to the store (each poll observes one of these).
On a stage failure the job moves to failed with the error recorded and
progress frozen; after the last stage the job is completed with
progress 100 and the output artifact path set. -/
def runFrom (j : Job) (path : String) : List (StatusKind × StageOutcome) → List Job
  | [] => [{ j with status := .completed, progress := 100, output_path := some path }]
  | (st, o) :: rest =>
    match o with
    | .success n =>
      stageSnaps j st n n ++
        runFrom { j with status := st, progress := bandHi st } path rest
    | .failure doneUnits n kind msg =>
      stageSnaps j st n (min doneUnits n) ++
        [{ j with
            status := .failed,
            progress := stageProg st (min doneUnits n) n,
            error := some (kind, msg) }]

/-- Modelled from the spec: one orchestrator run of a job: the outcome
of each of the four stages in order, and the output path used on
success. -/
structure Plan where
  transcribe : StageOutcome
  findHook : StageOutcome
  crop : StageOutcome
  render : StageOutcome
  outputPath : String
deriving DecidableEq, Repr

/-- The four stages of a plan in the fixed stage order. -/
def stagePlan (p : Plan) : List (StatusKind × StageOutcome) :=
  [(.transcribing, p.transcribe), (.finding_hook, p.findHook),
   (.cropping, p.crop), (.rendering, p.render)]

/-- A job as created in pending by the orchestrator on intake. -/
def pendingJob : Job :=
  { status := .pending, progress := 0, output_path := none, error := none }

/-- Modelled from the spec: run(job) of section 4.1 on a job consumed
in pending, as the full sequence of persisted job states from creation
to the terminal state. -/
def run (p : Plan) : List Job :=
  pendingJob :: runFrom pendingJob p.outputPath (stagePlan p)

/-- Whether every stage of the plan succeeds. -/
def planSucceeds (p : Plan) : Bool :=
  (stagePlan p).all (fun x => outcomeOk x.2)

/-- Modelled from the spec: charge(owner, amount) at job creation
(section 6); fails if the balance is insufficient. -/
def charge (balance amount : Nat) : Option Nat :=
  if amount ≤ balance then some (balance - amount) else none

/-- Modelled from the spec: refund(owner, amount) (section 6). -/
def refund (balance amount : Nat) : Nat := balance + amount

/-- Modelled from the spec: credit settlement (sections 4.1, 6, 7):
a job that reaches failed triggers exactly one refund of the amount
charged at creation; a completed job keeps the charge.  Returns the
final balance and the number of refund calls. -/
def settle (p : Plan) (balanceAfterCharge amount : Nat) : Nat × Nat :=
  if planSucceeds p then (balanceAfterCharge, 0)
  else (refund balanceAfterCharge amount, 1)

/-- Modelled from the spec: the per-job poll response of section 6. -/
structure PollResponse where
  status : StatusKind
  progress : Nat
  output_path : Option String
  error : Option (ErrorKind × String)
deriving DecidableEq, Repr

/-- Modelled from the spec: the poll endpoint exposes the job record's
status, progress, output path and error to the dashboard. -/
def pollJob (j : Job) : PollResponse :=
  { status := j.status, progress := j.progress,
    output_path := j.output_path, error := j.error }

/-- Band alignment of a stage list with a starting progress value: the
entry progress never exceeds the first stage's band, and each stage's
band ends where the next begins (the actual stage order satisfies
this). -/
def alignedFrom : Nat → List (StatusKind × StageOutcome) → Prop
  | p, [] => p ≤ 100
  | p, (st, _) :: rest => p ≤ bandLo st ∧ alignedFrom (bandHi st) rest

/-- Status alignment of a stage list with a starting status: each stage
is reachable from the previous by one state-machine step, no stage is
terminal, and the last stage steps to completed. -/
def statusAligned : StatusKind → List (StatusKind × StageOutcome) → Prop
  | s, [] => SpecStep s .completed
  | s, (st, _) :: rest => SpecStep s st ∧ isTerminal st = false ∧ statusAligned st rest

/-! ## Hook Curation Stage, modelled from the spec (section 4.3) -/

/-- Modelled from the spec: a transcript segment (section 3): start and
end time in seconds and the spoken text.  The end time is named stop
because end is reserved in Lean. -/
structure Segment where
  start : ℚ
  stop : ℚ
  text : String
deriving DecidableEq, Repr

/-- Number of whitespace-separated words in a segment's text. -/
def wordCount (s : String) : Nat :=
  ((s.splitOn " ").filter (fun w => w ≠ "")).length

/-- Modelled from the spec: the minimum allowed hook length, 15
seconds (section 3). -/
def minHookLen : ℚ := 15

/-- Modelled from the spec: the maximum allowed hook length, 90
seconds (section 3). -/
def maxHookLen : ℚ := 90

/-- Modelled from the spec: a HookSelection (section 3): a time
interval, a title and rationale, and a confidence score. -/
structure HookSelection where
  start : ℚ
  stop : ℚ
  title : String
  rationale : String
  confidence : ℚ
deriving DecidableEq, Repr

/-- Modelled from the spec: the language model's structured response
for hook selection: a recommended interval with a title and
rationale. -/
structure LLMResp where
  start : ℚ
  stop : ℚ
  title : String
  rationale : String
deriving DecidableEq, Repr

/-- Words spoken in the minimum-length window starting at a: total
word count of the segments starting inside the window. -/
def wordsIn (tr : List Segment) (a : ℚ) : Nat :=
  ((tr.filter (fun seg =>
      decide (a ≤ seg.start) && decide (seg.start < a + minHookLen))).map
    (fun seg => wordCount seg.text)).sum

/-- Speech density (words per second) of the minimum-length window
starting at a. -/
def density (tr : List Segment) (a : ℚ) : ℚ :=
  (wordsIn tr a : ℚ) / minHookLen

/-- Modelled from the spec: the candidate spans of the fallback
heuristic: one minimum-length span per sentence boundary (segment
start), shifted so the span lies inside the video. -/
def candStarts (tr : List Segment) (dur : ℚ) : List ℚ :=
  tr.map (fun seg => max 0 (min seg.start (dur - minHookLen)))

/-- Strict preference order of the heuristic: a beats b when a's span
is denser, or equally dense and earlier-starting. -/
def beatsP (tr : List Segment) (a b : ℚ) : Prop :=
  density tr b < density tr a ∨ (density tr a = density tr b ∧ a < b)

instance (tr : List Segment) (a b : ℚ) : Decidable (beatsP tr a b) := by
  unfold beatsP
  exact inferInstance

/-- Pick the best candidate: highest density, ties broken by earliest
start. -/
def pickBest (tr : List Segment) : List ℚ → Option ℚ
  | [] => none
  | c :: rest =>
    match pickBest tr rest with
    | none => some c
    | some b => if beatsP tr b c then some b else some c

/-- Modelled from the spec: the deterministic fallback heuristic
(section 4.3): the highest-density minimum-length span starting at a
sentence boundary, earliest span winning ties; for an empty transcript
the span starts at zero. -/
def fallbackHook (tr : List Segment) (dur : ℚ) : HookSelection :=
  let s :=
    match pickBest tr (candStarts tr dur) with
    | some c => c
    | none => 0
  { start := s, stop := s + minHookLen, title := "Auto highlight",
    rationale := "highest speech density span", confidence := 0 }

/-- Modelled from the spec: validation of a candidate interval
(section 4.3): inside the video and within the duration bounds. -/
def validHookB (dur s e : ℚ) : Bool :=
  decide (0 ≤ s) && decide (e ≤ dur) &&
    decide (minHookLen ≤ e - s) && decide (e - s ≤ maxHookLen)

/-- Modelled from the spec: the single clamp-and-correct pass
(section 4.3): clamp the interval into the video, then clamp the
length to the nearest bound. -/
def clampOnce (dur s e : ℚ) : ℚ × ℚ :=
  let s1 := max 0 s
  let e1 := min dur e
  if e1 - s1 < minHookLen then (s1, s1 + minHookLen)
  else if maxHookLen < e1 - s1 then (s1, s1 + maxHookLen)
  else (s1, e1)

/-- The retry loop around the language-model call: the first response
among the attempt budget, none when every attempt fails. -/
def attemptsLLM (oracle : Nat → Option LLMResp) : Nat → Option LLMResp
  | 0 => none
  | n + 1 =>
    match oracle n with
    | some r => some r
    | none => attemptsLLM oracle n

/-- Modelled from the spec: the Hook Curation Stage (section 4.3):
use the language model's response when valid, else clamp once and
re-validate, else (or when the call fails after retries) fall back to
the deterministic heuristic.  Never fails the job: always returns a
HookSelection. -/
def curateHook (tr : List Segment) (dur : ℚ) (oracle : Nat → Option LLMResp)
    (retries : Nat) : HookSelection :=
  match attemptsLLM oracle retries with
  | none => fallbackHook tr dur
  | some r =>
    if validHookB dur r.start r.stop then
      { start := r.start, stop := r.stop, title := r.title,
        rationale := r.rationale, confidence := 1 }
    else
      let c := clampOnce dur r.start r.stop
      if validHookB dur c.1 c.2 then
        { start := c.1, stop := c.2, title := r.title,
          rationale := r.rationale, confidence := 1 / 2 }
      else fallbackHook tr dur

/-! ## Face-Track and Crop Stage, modelled from the spec (section 4.4) -/

/-- A crop rectangle: top-left corner and size, in source pixels. -/
structure Rect where
  x : ℚ
  y : ℚ
  w : ℚ
  h : ℚ
deriving DecidableEq, Repr

/-- Width of the largest 9 by 16 rectangle fitting in a W by H source
frame. -/
def cropW (W H : ℚ) : ℚ := min W (H * 9 / 16)

/-- Height of the largest 9 by 16 rectangle fitting in a W by H source
frame. -/
def cropH (W H : ℚ) : ℚ := cropW W H * 16 / 9

/-- Modelled from the spec: the crop rectangle (section 4.4): the
largest 9 by 16 rectangle fitting inside the source frame, re-centered
on the smoothed point and clamped so it never exceeds the frame
bounds. -/
def cropRect (W H cx cy : ℚ) : Rect :=
  { x := max 0 (min (cx - cropW W H / 2) (W - cropW W H)),
    y := max 0 (min (cy - cropH W H / 2) (H - cropH W H)),
    w := cropW W H,
    h := cropH W H }

/-- Modelled from the spec: the state of the constant-velocity
smoothing filter (section 4.4): position and velocity estimates. -/
structure FilterState where
  px : ℚ
  py : ℚ
  vx : ℚ
  vy : ℚ
deriving DecidableEq, Repr

/-- Predict step: advance the position along the estimated velocity. -/
def predictF (st : FilterState) : FilterState :=
  { st with px := st.px + st.vx, py := st.py + st.vy }

/-- Constant blend gain of the smoothing filter. -/
def smoothGain : ℚ := 1 / 2

/-- Measurement update: blend the predicted position toward the
detected center and move the velocity estimate toward the observed
innovation. -/
def updateF (st : FilterState) (mx my : ℚ) : FilterState :=
  { px := st.px + smoothGain * (mx - st.px),
    py := st.py + smoothGain * (my - st.py),
    vx := st.vx + smoothGain * (mx - st.px),
    vy := st.vy + smoothGain * (my - st.py) }

/-- Modelled from the spec: per-frame smoothing (section 4.4): a
predict step every frame, a measurement update only when a detection
is available, so the smoothed center is defined for every frame. -/
def smoothCenters (st : FilterState) : List (Option (ℚ × ℚ)) → List (ℚ × ℚ)
  | [] => []
  | d :: rest =>
    let st2 :=
      match d with
      | none => predictF st
      | some m => updateF (predictF st) m.1 m.2
    (st2.px, st2.py) :: smoothCenters st2 rest

/-- Modelled from the spec: the Face-Track and Crop Stage
(section 4.4): one crop rectangle per sampled frame of the hook
interval, derived from the smoothed center, or from the centered
static fallback when no frame has a detection. -/
def faceTrack (W H : ℚ) (dets : List (Option (ℚ × ℚ))) : List Rect :=
  if dets.all (fun d => d.isNone) then
    dets.map (fun _ => cropRect W H (W / 2) (H / 2))
  else
    (smoothCenters { px := W / 2, py := H / 2, vx := 0, vy := 0 } dets).map
      (fun c => cropRect W H c.1 c.2)

/-! ## Theorems for the front-end claims -/

theorem getAuthToken_ne_empty (sf : Option (Option String)) (t : String)
    (h : getAuthToken sf = some t) : t ≠ "" := by
  unfold getAuthToken at h
  match sf with
  | none => simp at h
  | some tokenField =>
    match tokenField with
    | none => simp at h
    | some s =>
      by_cases hs : s = "" <;> simp [hs] at h
      intro ht
      rw [h, ht] at hs
      exact hs rfl

/-- C9: `authFetch` always issues the underlying fetch with the
caller's options and headers; it adds an Authorization header of the
form `Bearer <token>` exactly when `getAuthToken` returns a non-null
token; when no token is available (including when the session fetch
throws, in which case `getAuthToken` returns null) the request is still
sent, with the caller's headers unchanged and hence without an
Authorization header. -/
theorem authFetch_spec (url : String) (options : RequestInit)
    (sessionFetch : Option (Option String)) :
    ((authFetch url options sessionFetch).url = url ∧
     (authFetch url options sessionFetch).method = options.method ∧
     (authFetch url options sessionFetch).body = options.body) ∧
    (∀ t, getAuthToken sessionFetch = some t →
      (authFetch url options sessionFetch).headers "Authorization" =
        some ("Bearer " ++ t)) ∧
    (getAuthToken sessionFetch = none →
      (authFetch url options sessionFetch).headers = options.headers) ∧
    (∀ k, k ≠ "Authorization" →
      (authFetch url options sessionFetch).headers k = options.headers k) ∧
    (sessionFetch = none → getAuthToken sessionFetch = none) := by
  refine ⟨⟨rfl, rfl, rfl⟩, ?_, ?_, ?_, ?_⟩
  · intro t ht
    have hne : t ≠ "" := getAuthToken_ne_empty sessionFetch t ht
    simp [authFetch, ht, hne, setHeader]
  · intro h
    simp only [authFetch, h]
  · intro k hk
    cases h : getAuthToken sessionFetch with
    | none => simp only [authFetch, h]
    | some t =>
      have hne : t ≠ "" := getAuthToken_ne_empty sessionFetch t h
      simp only [authFetch, h, hne, if_false, setHeader, if_neg hk]
  · intro h
    rw [h]
    rfl

/-- Witness for C9: a request with a live token carries the Bearer
header; with a thrown session fetch the token is null and the caller's
headers go through unchanged. -/
theorem authFetch_spec_witness :
    ((authFetch "https://api.example.com/api/jobs"
        { method := some "GET", body := none, headers := fun _ => none }
        (some (some "tok123"))).headers "Authorization" =
      some ("Bearer " ++ "tok123")) ∧
    ((authFetch "https://api.example.com/api/jobs"
        { method := some "GET", body := none, headers := fun _ => none }
        none).headers =
      ({ method := some "GET", body := none,
         headers := fun _ => none } : RequestInit).headers) ∧
    getAuthToken none = none :=
  ⟨(authFetch_spec "https://api.example.com/api/jobs"
      { method := some "GET", body := none, headers := fun _ => none }
      (some (some "tok123"))).2.1 "tok123" (by decide),
   (authFetch_spec "https://api.example.com/api/jobs"
      { method := some "GET", body := none, headers := fun _ => none }
      none).2.2.1 rfl,
   (authFetch_spec "https://api.example.com/api/jobs"
      { method := some "GET", body := none, headers := fun _ => none }
      none).2.2.2.2 rfl⟩

theorem cropRect_bounds (W H cx cy : ℚ) (hW : 0 < W) (hH : 0 < H) :
    0 ≤ (cropRect W H cx cy).x ∧
    (cropRect W H cx cy).x + (cropRect W H cx cy).w ≤ W ∧
    0 ≤ (cropRect W H cx cy).y ∧
    (cropRect W H cx cy).y + (cropRect W H cx cy).h ≤ H := by
  have hw0 : 0 ≤ cropW W H := le_min hW.le (by positivity)
  have hwW : cropW W H ≤ W := min_le_left _ _
  have hwr : cropW W H ≤ H * 9 / 16 := min_le_right _ _
  have hhH : cropH W H ≤ H := by
    unfold cropH
    linarith
  have hh0 : 0 ≤ cropH W H := by
    unfold cropH
    positivity
  refine ⟨?_, ?_, ?_, ?_⟩
  · exact le_max_left _ _
  · have hx : (cropRect W H cx cy).x ≤ W - cropW W H :=
      max_le (by linarith) (min_le_right _ _)
    have hxw : (cropRect W H cx cy).w = cropW W H := rfl
    rw [hxw]
    linarith
  · exact le_max_left _ _
  · have hy : (cropRect W H cx cy).y ≤ H - cropH W H :=
      max_le (by linarith) (min_le_right _ _)
    have hyh : (cropRect W H cx cy).h = cropH W H := rfl
    rw [hyh]
    linarith

/-- C6: every crop rectangle produced by the Face-Track and Crop
Stage — via the smoothed centers, or via the centered static fallback
when no face is ever detected — lies entirely within the source frame
bounds. -/
theorem faceTrack_in_bounds (W H : ℚ) (dets : List (Option (ℚ × ℚ)))
    (hW : 0 < W) (hH : 0 < H) :
    ∀ r ∈ faceTrack W H dets,
      0 ≤ r.x ∧ r.x + r.w ≤ W ∧ 0 ≤ r.y ∧ r.y + r.h ≤ H := by
  intro r hr
  unfold faceTrack at hr
  by_cases hall : dets.all (fun d => d.isNone)
  · rw [if_pos hall, List.mem_map] at hr
    obtain ⟨d, _, rfl⟩ := hr
    exact cropRect_bounds W H (W / 2) (H / 2) hW hH
  · rw [if_neg hall, List.mem_map] at hr
    obtain ⟨c, _, rfl⟩ := hr
    exact cropRect_bounds W H c.1 c.2 hW hH

/-- Witness for C6: a 1920 by 1080 source frame with a single
undetected frame; the static centered crop rectangle stays in
bounds. -/
theorem faceTrack_in_bounds_witness :
    (0 : ℚ) < 1920 ∧ (0 : ℚ) < 1080 ∧
    (0 ≤ (cropRect 1920 1080 (1920 / 2) (1080 / 2)).x ∧
     (cropRect 1920 1080 (1920 / 2) (1080 / 2)).x +
       (cropRect 1920 1080 (1920 / 2) (1080 / 2)).w ≤ 1920 ∧
     0 ≤ (cropRect 1920 1080 (1920 / 2) (1080 / 2)).y ∧
     (cropRect 1920 1080 (1920 / 2) (1080 / 2)).y +
       (cropRect 1920 1080 (1920 / 2) (1080 / 2)).h ≤ 1080) :=
  ⟨by norm_num, by norm_num,
   faceTrack_in_bounds 1920 1080 [none] (by norm_num) (by norm_num)
     (cropRect 1920 1080 (1920 / 2) (1080 / 2)) (by simp [faceTrack])⟩

theorem attemptsLLM_all_fail (retries : Nat) :
    attemptsLLM (fun _ => none) retries = none := by
  induction retries with
  | zero => rfl
  | succ n ih => simp [attemptsLLM, ih]

theorem beatsP_irrefl (tr : List Segment) (a : ℚ) : ¬ beatsP tr a a := by
  unfold beatsP
  push_neg
  exact ⟨le_refl _, fun _ => le_refl _⟩

theorem beatsP_asymm (tr : List Segment) (a b : ℚ) (h : beatsP tr a b) :
    ¬ beatsP tr b a := by
  unfold beatsP at h ⊢
  push_neg
  rcases h with h | ⟨heq, hlt⟩
  · refine ⟨h.le, fun he => ?_⟩
    rw [he] at h
    exact absurd h (lt_irrefl _)
  · exact ⟨heq.ge, fun _ => hlt.le⟩

theorem notbeats_trans (tr : List Segment) (x b c : ℚ)
    (h1 : ¬ beatsP tr x b) (h2 : ¬ beatsP tr b c) : ¬ beatsP tr x c := by
  unfold beatsP at h1 h2 ⊢
  push_neg at h1 h2 ⊢
  obtain ⟨h1a, h1b⟩ := h1
  obtain ⟨h2a, h2b⟩ := h2
  constructor
  · exact le_trans h1a h2a
  · intro hxc
    have hxb : density tr x = density tr b := le_antisymm h1a (by rw [hxc] at h1a ⊢; linarith)
    have hbc : density tr b = density tr c := by rw [← hxb, hxc]
    exact le_trans (h2b hbc) (h1b hxb)

theorem pickBest_eq_none (tr : List Segment) (cands : List ℚ)
    (h : pickBest tr cands = none) : cands = [] := by
  cases cands with
  | nil => rfl
  | cons c rest =>
    exfalso
    simp only [pickBest] at h
    cases hp : pickBest tr rest with
    | none => rw [hp] at h; simp at h
    | some b =>
      rw [hp] at h
      by_cases hb : beatsP tr b c <;> simp [hb] at h

theorem pickBest_mem (tr : List Segment) (cands : List ℚ) :
    ∀ r : ℚ, pickBest tr cands = some r → r ∈ cands := by
  induction cands with
  | nil => intro r h; simp [pickBest] at h
  | cons c rest ih =>
    intro r h
    simp only [pickBest] at h
    cases hp : pickBest tr rest with
    | none =>
      rw [hp] at h
      dsimp only at h
      simp only [Option.some.injEq] at h
      rw [← h]
      exact List.mem_cons_self c rest
    | some b =>
      rw [hp] at h
      dsimp only at h
      by_cases hb : beatsP tr b c
      · rw [if_pos hb] at h
        simp only [Option.some.injEq] at h
        subst h
        exact List.mem_cons_of_mem c (ih b hp)
      · rw [if_neg hb] at h
        simp only [Option.some.injEq] at h
        rw [← h]
        exact List.mem_cons_self c rest

theorem pickBest_best (tr : List Segment) (cands : List ℚ) :
    ∀ r : ℚ, pickBest tr cands = some r → ∀ c ∈ cands, ¬ beatsP tr c r := by
  induction cands with
  | nil => intro r h; simp [pickBest] at h
  | cons c rest ih =>
    intro r h
    simp only [pickBest] at h
    cases hp : pickBest tr rest with
    | none =>
      have hrest : rest = [] := pickBest_eq_none tr rest hp
      rw [hp] at h
      dsimp only at h
      simp only [Option.some.injEq] at h
      subst h
      subst hrest
      intro x hx
      rw [List.mem_singleton] at hx
      subst hx
      exact beatsP_irrefl tr x
    | some b =>
      rw [hp] at h
      dsimp only at h
      by_cases hb : beatsP tr b c
      · rw [if_pos hb] at h
        simp only [Option.some.injEq] at h
        subst h
        intro x hx
        rcases List.mem_cons.mp hx with hx | hx
        · subst hx
          exact beatsP_asymm tr b x hb
        · exact ih b hp x hx
      · rw [if_neg hb] at h
        simp only [Option.some.injEq] at h
        subst h
        intro x hx
        rcases List.mem_cons.mp hx with hx | hx
        · subst hx
          exact beatsP_irrefl tr x
        · exact notbeats_trans tr x b c (ih b hp x hx) hb

theorem candStarts_mem_bounds (tr : List Segment) (dur : ℚ) (c : ℚ)
    (hdur : minHookLen ≤ dur) (hc : c ∈ candStarts tr dur) :
    0 ≤ c ∧ c ≤ dur - minHookLen := by
  unfold candStarts at hc
  rw [List.mem_map] at hc
  obtain ⟨seg, _, rfl⟩ := hc
  refine ⟨le_max_left _ _, max_le (by linarith) (min_le_right _ _)⟩

theorem fallbackHook_bounds (tr : List Segment) (dur : ℚ)
    (hdur : minHookLen ≤ dur) :
    0 ≤ (fallbackHook tr dur).start ∧
    (fallbackHook tr dur).stop ≤ dur ∧
    (fallbackHook tr dur).stop - (fallbackHook tr dur).start = minHookLen := by
  unfold fallbackHook
  cases hP : pickBest tr (candStarts tr dur) with
  | none =>
    simp only
    refine ⟨le_refl _, ?_, by ring⟩
    simp only [zero_add]
    exact hdur
  | some c =>
    simp only
    obtain ⟨hc0, hcd⟩ :=
      candStarts_mem_bounds tr dur c hdur (pickBest_mem tr _ c hP)
    exact ⟨hc0, by linarith, by ring⟩

theorem validHookB_iff (dur s e : ℚ) :
    validHookB dur s e = true ↔
      0 ≤ s ∧ e ≤ dur ∧ minHookLen ≤ e - s ∧ e - s ≤ maxHookLen := by
  unfold validHookB
  simp [Bool.and_eq_true, decide_eq_true_iff, and_assoc]

theorem curateHook_of_none (tr : List Segment) (dur : ℚ)
    (oracle : Nat → Option LLMResp) (retries : Nat)
    (h : attemptsLLM oracle retries = none) :
    curateHook tr dur oracle retries = fallbackHook tr dur := by
  unfold curateHook
  rw [h]

theorem curateHook_of_some (tr : List Segment) (dur : ℚ)
    (oracle : Nat → Option LLMResp) (retries : Nat) (r : LLMResp)
    (h : attemptsLLM oracle retries = some r) :
    curateHook tr dur oracle retries =
      (if validHookB dur r.start r.stop then
        { start := r.start, stop := r.stop, title := r.title,
          rationale := r.rationale, confidence := 1 }
      else if validHookB dur (clampOnce dur r.start r.stop).1
          (clampOnce dur r.start r.stop).2 then
        { start := (clampOnce dur r.start r.stop).1,
          stop := (clampOnce dur r.start r.stop).2, title := r.title,
          rationale := r.rationale, confidence := 1 / 2 }
      else fallbackHook tr dur) := by
  unfold curateHook
  rw [h]

/-- C4: every HookSelection produced by the Hook Curation Stage — via
the validated or clamped language-model path, or via the fallback
heuristic — has an interval of length between the minimum and maximum
hook lengths that lies within the video. -/
theorem curateHook_bounds (tr : List Segment) (dur : ℚ)
    (oracle : Nat → Option LLMResp) (retries : Nat)
    (hdur : minHookLen ≤ dur) :
    0 ≤ (curateHook tr dur oracle retries).start ∧
    (curateHook tr dur oracle retries).stop ≤ dur ∧
    minHookLen ≤ (curateHook tr dur oracle retries).stop -
      (curateHook tr dur oracle retries).start ∧
    (curateHook tr dur oracle retries).stop -
      (curateHook tr dur oracle retries).start ≤ maxHookLen := by
  have hfb : 0 ≤ (fallbackHook tr dur).start ∧
      (fallbackHook tr dur).stop ≤ dur ∧
      minHookLen ≤ (fallbackHook tr dur).stop - (fallbackHook tr dur).start ∧
      (fallbackHook tr dur).stop - (fallbackHook tr dur).start ≤ maxHookLen := by
    obtain ⟨h1, h2, h3⟩ := fallbackHook_bounds tr dur hdur
    refine ⟨h1, h2, le_of_eq h3.symm, ?_⟩
    rw [h3]
    norm_num [minHookLen, maxHookLen]
  cases hA : attemptsLLM oracle retries with
  | none =>
    rw [curateHook_of_none tr dur oracle retries hA]
    exact hfb
  | some r =>
    rw [curateHook_of_some tr dur oracle retries r hA]
    by_cases hv : validHookB dur r.start r.stop
    · rw [if_pos hv]
      obtain ⟨h1, h2, h3, h4⟩ := (validHookB_iff dur r.start r.stop).mp hv
      exact ⟨h1, h2, h3, h4⟩
    · rw [if_neg hv]
      by_cases hv2 : validHookB dur (clampOnce dur r.start r.stop).1
          (clampOnce dur r.start r.stop).2
      · rw [if_pos hv2]
        obtain ⟨h1, h2, h3, h4⟩ := (validHookB_iff dur _ _).mp hv2
        exact ⟨h1, h2, h3, h4⟩
      · rw [if_neg hv2]
        exact hfb

/-- Witness for C4: a concrete transcript and a 30-second video; the
language model fails every retry and the fallback interval satisfies
the bounds. -/
theorem curateHook_bounds_witness :
    minHookLen ≤ (30 : ℚ) ∧
    (0 ≤ (curateHook [⟨0, 5, "hello world"⟩, ⟨5, 9, "more words here"⟩] 30
        (fun _ => none) 3).start ∧
     (curateHook [⟨0, 5, "hello world"⟩, ⟨5, 9, "more words here"⟩] 30
        (fun _ => none) 3).stop ≤ 30 ∧
     minHookLen ≤ (curateHook [⟨0, 5, "hello world"⟩, ⟨5, 9, "more words here"⟩] 30
        (fun _ => none) 3).stop -
       (curateHook [⟨0, 5, "hello world"⟩, ⟨5, 9, "more words here"⟩] 30
        (fun _ => none) 3).start ∧
     (curateHook [⟨0, 5, "hello world"⟩, ⟨5, 9, "more words here"⟩] 30
        (fun _ => none) 3).stop -
       (curateHook [⟨0, 5, "hello world"⟩, ⟨5, 9, "more words here"⟩] 30
        (fun _ => none) 3).start ≤ maxHookLen) :=
  ⟨by norm_num [minHookLen],
   curateHook_bounds [⟨0, 5, "hello world"⟩, ⟨5, 9, "more words here"⟩] 30
     (fun _ => none) 3 (by norm_num [minHookLen])⟩

/-- C5: the Hook Curation Stage never fails: when the language-model
call fails on every retry, or its response stays invalid after the one
clamp-and-revalidate pass, it still returns a HookSelection, namely the
deterministic highest-density heuristic, whose result beats no other
candidate only by density or by starting earlier among equally dense
spans. -/
theorem curateHook_never_fails (tr : List Segment) (dur : ℚ) (retries : Nat) :
    curateHook tr dur (fun _ => none) retries = fallbackHook tr dur ∧
    (∀ r : LLMResp, validHookB dur r.start r.stop = false →
      validHookB dur (clampOnce dur r.start r.stop).1
        (clampOnce dur r.start r.stop).2 = false →
      curateHook tr dur (fun _ => some r) (retries + 1) = fallbackHook tr dur) ∧
    (∀ c ∈ candStarts tr dur,
      density tr c < density tr (fallbackHook tr dur).start ∨
        (density tr c = density tr (fallbackHook tr dur).start ∧
          (fallbackHook tr dur).start ≤ c)) ∧
    ((fallbackHook tr dur).start ∈ candStarts tr dur ∨
      (candStarts tr dur = [] ∧ (fallbackHook tr dur).start = 0)) := by
  refine ⟨?_, ?_, ?_, ?_⟩
  · exact curateHook_of_none tr dur (fun _ => none) retries
      (attemptsLLM_all_fail retries)
  · intro r hv hv2
    have hA : attemptsLLM (fun _ => some r) (retries + 1) = some r := rfl
    rw [curateHook_of_some tr dur (fun _ => some r) (retries + 1) r hA]
    rw [if_neg (by rw [hv]; exact Bool.false_ne_true),
        if_neg (by rw [hv2]; exact Bool.false_ne_true)]
  · intro c hc
    cases hP : pickBest tr (candStarts tr dur) with
    | none =>
      rw [pickBest_eq_none tr _ hP] at hc
      exact absurd hc (List.not_mem_nil c)
    | some b =>
      have hnb : ¬ beatsP tr c b := pickBest_best tr _ b hP c hc
      unfold beatsP at hnb
      push_neg at hnb
      obtain ⟨hle, himp⟩ := hnb
      have hstart : (fallbackHook tr dur).start = b := by
        unfold fallbackHook
        rw [hP]
      rw [hstart]
      rcases lt_or_eq_of_le hle with hlt | heq
      · exact Or.inl hlt
      · exact Or.inr ⟨heq, himp heq⟩
  · cases hP : pickBest tr (candStarts tr dur) with
    | none =>
      right
      refine ⟨pickBest_eq_none tr _ hP, ?_⟩
      unfold fallbackHook
      rw [hP]
    | some b =>
      left
      have hstart : (fallbackHook tr dur).start = b := by
        unfold fallbackHook
        rw [hP]
      rw [hstart]
      exact pickBest_mem tr _ b hP

/-- Witness for C5: the concrete two-segment transcript; the
always-failing oracle degrades to the heuristic, and the candidate 5 is
not preferred over the chosen start. -/
theorem curateHook_never_fails_witness :
    curateHook [⟨0, 5, "hello world"⟩, ⟨5, 9, "more words here"⟩] 30
      (fun _ => none) 3 =
      fallbackHook [⟨0, 5, "hello world"⟩, ⟨5, 9, "more words here"⟩] 30 ∧
    ((5 : ℚ) ∈ candStarts [⟨0, 5, "hello world"⟩, ⟨5, 9, "more words here"⟩] 30 ∧
     (density [⟨0, 5, "hello world"⟩, ⟨5, 9, "more words here"⟩] 5 <
        density [⟨0, 5, "hello world"⟩, ⟨5, 9, "more words here"⟩]
          (fallbackHook [⟨0, 5, "hello world"⟩, ⟨5, 9, "more words here"⟩] 30).start ∨
      (density [⟨0, 5, "hello world"⟩, ⟨5, 9, "more words here"⟩] 5 =
        density [⟨0, 5, "hello world"⟩, ⟨5, 9, "more words here"⟩]
          (fallbackHook [⟨0, 5, "hello world"⟩, ⟨5, 9, "more words here"⟩] 30).start ∧
       (fallbackHook [⟨0, 5, "hello world"⟩, ⟨5, 9, "more words here"⟩] 30).start ≤ 5))) :=
  ⟨(curateHook_never_fails [⟨0, 5, "hello world"⟩, ⟨5, 9, "more words here"⟩] 30 3).1,
   by
    have hmem : (5 : ℚ) ∈ candStarts [⟨0, 5, "hello world"⟩, ⟨5, 9, "more words here"⟩] 30 := by
      simp [candStarts, minHookLen]
      norm_num
    exact ⟨hmem,
      (curateHook_never_fails [⟨0, 5, "hello world"⟩, ⟨5, 9, "more words here"⟩] 30 3).2.2.1
        5 hmem⟩⟩

theorem bandLo_le_bandHi (st : StatusKind) : bandLo st ≤ bandHi st := by
  cases st <;> simp [bandLo, bandHi]

theorem bandHi_le_100 (st : StatusKind) : bandHi st ≤ 100 := by
  cases st <;> simp [bandHi]

theorem stageProg_zero (st : StatusKind) (n : Nat) :
    stageProg st 0 n = bandLo st := by
  simp [stageProg]

theorem stageProg_mono (st : StatusKind) (n a b : Nat) (h : a ≤ b) :
    stageProg st a n ≤ stageProg st b n := by
  unfold stageProg
  exact Nat.add_le_add_left (Nat.div_le_div_right (Nat.mul_le_mul_left _ h)) _

theorem stageProg_le_bandHi (st : StatusKind) (k n : Nat) (h : k ≤ n) :
    stageProg st k n ≤ bandHi st := by
  unfold stageProg
  rcases Nat.eq_zero_or_pos n with hn | hn
  · subst hn
    simp only [Nat.div_zero, Nat.add_zero]
    exact bandLo_le_bandHi st
  · have h1 : (bandHi st - bandLo st) * k / n ≤ (bandHi st - bandLo st) * n / n :=
      Nat.div_le_div_right (Nat.mul_le_mul_left _ h)
    rw [Nat.mul_div_cancel _ hn] at h1
    have h2 := bandLo_le_bandHi st
    omega

theorem not_terminal_ne (s : StatusKind) (h : isTerminal s = false) :
    s ≠ .completed ∧ s ≠ .failed := by
  cases s <;> simp_all [isTerminal]

theorem stageSnaps_ne_nil (j : Job) (st : StatusKind) (n upto : Nat) :
    stageSnaps j st n upto ≠ [] := by
  simp [stageSnaps]

theorem stageSnaps_head? (j : Job) (st : StatusKind) (n upto : Nat) :
    (stageSnaps j st n upto).head? =
      some { j with status := st, progress := bandLo st } := by
  unfold stageSnaps
  rw [List.range_succ_eq_map]
  simp [stageProg_zero]

theorem stageSnaps_getLast? (j : Job) (st : StatusKind) (n upto : Nat) :
    (stageSnaps j st n upto).getLast? =
      some { j with status := st, progress := stageProg st upto n } := by
  unfold stageSnaps
  rw [List.range_succ, List.map_append]
  simp

theorem stageSnaps_split (j : Job) (st : StatusKind) (n upto : Nat) :
    stageSnaps j st n upto =
      (List.range upto).map
        (fun k => { j with status := st, progress := stageProg st k n }) ++
      [{ j with status := st, progress := stageProg st upto n }] := by
  unfold stageSnaps
  rw [List.range_succ, List.map_append]
  simp

theorem stageSnaps_mem (j : Job) (st : StatusKind) (n upto : Nat) (x : Job)
    (hx : x ∈ stageSnaps j st n upto) :
    x.status = st ∧ x.output_path = j.output_path ∧ x.error = j.error ∧
      ∃ k, k ≤ upto ∧ x.progress = stageProg st k n := by
  unfold stageSnaps at hx
  rw [List.mem_map] at hx
  obtain ⟨k, hk, rfl⟩ := hx
  rw [List.mem_range] at hk
  exact ⟨rfl, rfl, rfl, k, Nat.lt_succ_iff.mp hk, rfl⟩

theorem stageSnaps_chain (j : Job) (st : StatusKind) (n upto : Nat) :
    List.Chain' (fun a b : Job => a.progress ≤ b.progress)
      (stageSnaps j st n upto) := by
  unfold stageSnaps
  rw [List.chain'_map]
  exact (List.chain'_range_succ _ upto).mpr
    (fun m _ => stageProg_mono st n m (m + 1) (Nat.le_succ m))

theorem stageSnaps_status_chain (j : Job) (st : StatusKind) (n upto : Nat) :
    List.Chain' (fun a b : Job => a.status = b.status ∨ SpecStep a.status b.status)
      (stageSnaps j st n upto) := by
  unfold stageSnaps
  rw [List.chain'_map]
  exact (List.chain'_range_succ _ upto).mpr (fun m _ => Or.inl rfl)

theorem runFrom_facts (path : String) (stages : List (StatusKind × StageOutcome)) :
    ∀ j : Job, alignedFrom j.progress stages → statusAligned j.status stages →
      j.output_path = none → j.error = none →
      (runFrom j path stages ≠ [] ∧
       List.Chain' (fun a b : Job => a.progress ≤ b.progress)
         (j :: runFrom j path stages) ∧
       (∀ x ∈ runFrom j path stages, x.progress ≤ 100) ∧
       List.Chain' (fun a b : Job => a.status = b.status ∨ SpecStep a.status b.status)
         (j :: runFrom j path stages) ∧
       (∀ x ∈ runFrom j path stages,
         (x.output_path.isSome ↔ x.status = .completed) ∧
         (x.error.isSome ↔ x.status = .failed)) ∧
       ((stages.all fun x => outcomeOk x.2) = true →
         (runFrom j path stages).getLast? =
           some { status := .completed, progress := 100,
                  output_path := some path, error := none } ∧
         ∀ x ∈ runFrom j path stages, x.status ≠ .failed) ∧
       ((stages.all fun x => outcomeOk x.2) = false →
         ∃ pre l1 l2, runFrom j path stages = pre ++ [l1, l2] ∧
           l2.status = .failed ∧ l2.error.isSome ∧ l2.progress = l1.progress)) := by
  induction stages with
  | nil =>
    intro j hA hS hO hE
    have hA100 : j.progress ≤ 100 := hA
    have hSc : SpecStep j.status .completed := hS
    have hRF : runFrom j path [] =
        [{ j with status := .completed, progress := 100, output_path := some path }] := by
      simp [runFrom]
    rw [hRF]
    refine ⟨by simp, ?_, ?_, ?_, ?_, ?_, ?_⟩
    · exact List.chain'_cons.mpr ⟨hA100, List.chain'_singleton _⟩
    · intro x hx
      rw [List.mem_singleton] at hx
      subst hx
      exact le_refl 100
    · exact List.chain'_cons.mpr ⟨Or.inr hSc, List.chain'_singleton _⟩
    · intro x hx
      rw [List.mem_singleton] at hx
      subst hx
      simp [hE]
    · intro _
      refine ⟨?_, ?_⟩
      · rw [List.getLast?_singleton, hE]
      · intro x hx
        rw [List.mem_singleton] at hx
        subst hx
        simp
    · intro hcon
      simp at hcon
  | cons hd rest ih =>
    obtain ⟨st, o⟩ := hd
    intro j hA hS hO hE
    simp only [alignedFrom] at hA
    simp only [statusAligned] at hS
    obtain ⟨hA1, hA2⟩ := hA
    obtain ⟨hS1, hStm, hS2⟩ := hS
    obtain ⟨hstc, hstf⟩ := not_terminal_ne st hStm
    cases o with
    | success n =>
      have hRF : runFrom j path ((st, StageOutcome.success n) :: rest) =
          stageSnaps j st n n ++
            runFrom { j with status := st, progress := bandHi st } path rest := by
        simp [runFrom]
      obtain ⟨ihne, ihP, ihB, ihS, ihD, ihE, ihF⟩ :=
        ih { j with status := st, progress := bandHi st } hA2 hS2 hO hE
      obtain ⟨ihPh, ihPt⟩ := List.chain'_cons'.mp ihP
      obtain ⟨ihSh, ihSt⟩ := List.chain'_cons'.mp ihS
      have hlink : ∀ x ∈ (stageSnaps j st n n).getLast?,
          ∀ y ∈ (runFrom { j with status := st, progress := bandHi st } path rest).head?,
            x.progress ≤ y.progress := by
        intro x hx y hy
        rw [stageSnaps_getLast?] at hx
        rw [Option.mem_def, Option.some.injEq] at hx
        subst hx
        have h1 : stageProg st n n ≤ bandHi st := stageProg_le_bandHi st n n (le_refl n)
        exact le_trans h1 (ihPh y hy)
      have hslink : ∀ x ∈ (stageSnaps j st n n).getLast?,
          ∀ y ∈ (runFrom { j with status := st, progress := bandHi st } path rest).head?,
            x.status = y.status ∨ SpecStep x.status y.status := by
        intro x hx y hy
        rw [stageSnaps_getLast?] at hx
        rw [Option.mem_def, Option.some.injEq] at hx
        subst hx
        exact ihSh y hy
      rw [hRF]
      refine ⟨?_, ?_, ?_, ?_, ?_, ?_, ?_⟩
      · intro hc
        rw [List.append_eq_nil] at hc
        exact stageSnaps_ne_nil j st n n hc.1
      · refine List.chain'_cons'.mpr ⟨?_, ?_⟩
        · intro y hy
          rw [List.head?_append_of_ne_nil _ (stageSnaps_ne_nil j st n n),
            stageSnaps_head?] at hy
          rw [Option.mem_def, Option.some.injEq] at hy
          subst hy
          exact hA1
        · exact List.Chain'.append (stageSnaps_chain j st n n) ihPt hlink
      · intro x hx
        rw [List.mem_append] at hx
        rcases hx with hx | hx
        · obtain ⟨_, _, _, k, hk, hp⟩ := stageSnaps_mem j st n n x hx
          rw [hp]
          exact le_trans (stageProg_le_bandHi st k n hk) (bandHi_le_100 st)
        · exact ihB x hx
      · refine List.chain'_cons'.mpr ⟨?_, ?_⟩
        · intro y hy
          rw [List.head?_append_of_ne_nil _ (stageSnaps_ne_nil j st n n),
            stageSnaps_head?] at hy
          rw [Option.mem_def, Option.some.injEq] at hy
          subst hy
          exact Or.inr hS1
        · exact List.Chain'.append (stageSnaps_status_chain j st n n) ihSt hslink
      · intro x hx
        rw [List.mem_append] at hx
        rcases hx with hx | hx
        · obtain ⟨hst, hout, herr, _⟩ := stageSnaps_mem j st n n x hx
          rw [hst, hout, herr, hO, hE]
          simp [hstc, hstf]
        · exact ihD x hx
      · intro hall
        simp only [List.all_cons, outcomeOk, Bool.true_and] at hall
        refine ⟨?_, ?_⟩
        · rw [List.getLast?_append_of_ne_nil _ ihne]
          exact (ihE hall).1
        · intro x hx
          rw [List.mem_append] at hx
          rcases hx with hx | hx
          · obtain ⟨hst, _, _, _⟩ := stageSnaps_mem j st n n x hx
            rw [hst]
            exact hstf
          · exact (ihE hall).2 x hx
      · intro hall
        simp only [List.all_cons, outcomeOk, Bool.true_and] at hall
        obtain ⟨pre, l1, l2, heq, h2, h3, h4⟩ := ihF hall
        refine ⟨stageSnaps j st n n ++ pre, l1, l2, ?_, h2, h3, h4⟩
        rw [heq, List.append_assoc]
    | failure dU n kind msg =>
      have hRF : runFrom j path ((st, StageOutcome.failure dU n kind msg) :: rest) =
          stageSnaps j st n (min dU n) ++
            [{ j with
                status := .failed,
                progress := stageProg st (min dU n) n,
                error := some (kind, msg) }] := by
        simp [runFrom]
      rw [hRF]
      have hdn : min dU n ≤ n := min_le_right dU n
      refine ⟨?_, ?_, ?_, ?_, ?_, ?_, ?_⟩
      · intro hc
        rw [List.append_eq_nil] at hc
        exact stageSnaps_ne_nil j st n (min dU n) hc.1
      · refine List.chain'_cons'.mpr ⟨?_, ?_⟩
        · intro y hy
          rw [List.head?_append_of_ne_nil _ (stageSnaps_ne_nil j st n (min dU n)),
            stageSnaps_head?] at hy
          rw [Option.mem_def, Option.some.injEq] at hy
          subst hy
          exact hA1
        · refine List.Chain'.append (stageSnaps_chain j st n (min dU n))
            (List.chain'_singleton _) ?_
          intro x hx y hy
          rw [stageSnaps_getLast?] at hx
          rw [Option.mem_def, Option.some.injEq] at hx
          subst hx
          rw [List.head?_cons, Option.mem_def, Option.some.injEq] at hy
          subst hy
          exact le_refl _
      · intro x hx
        rw [List.mem_append] at hx
        rcases hx with hx | hx
        · obtain ⟨_, _, _, k, hk, hp⟩ := stageSnaps_mem j st n (min dU n) x hx
          rw [hp]
          exact le_trans (stageProg_le_bandHi st k n (le_trans hk hdn)) (bandHi_le_100 st)
        · rw [List.mem_singleton] at hx
          subst hx
          exact le_trans (stageProg_le_bandHi st (min dU n) n hdn) (bandHi_le_100 st)
      · refine List.chain'_cons'.mpr ⟨?_, ?_⟩
        · intro y hy
          rw [List.head?_append_of_ne_nil _ (stageSnaps_ne_nil j st n (min dU n)),
            stageSnaps_head?] at hy
          rw [Option.mem_def, Option.some.injEq] at hy
          subst hy
          exact Or.inr hS1
        · refine List.Chain'.append (stageSnaps_status_chain j st n (min dU n))
            (List.chain'_singleton _) ?_
          intro x hx y hy
          rw [stageSnaps_getLast?] at hx
          rw [Option.mem_def, Option.some.injEq] at hx
          subst hx
          rw [List.head?_cons, Option.mem_def, Option.some.injEq] at hy
          subst hy
          exact Or.inr (SpecStep.to_failed st hStm)
      · intro x hx
        rw [List.mem_append] at hx
        rcases hx with hx | hx
        · obtain ⟨hst, hout, herr, _⟩ := stageSnaps_mem j st n (min dU n) x hx
          rw [hst, hout, herr, hO, hE]
          simp [hstc, hstf]
        · rw [List.mem_singleton] at hx
          subst hx
          simp [hO]
      · intro hall
        simp only [List.all_cons, outcomeOk, Bool.false_and] at hall
        exact absurd hall Bool.false_ne_true
      · intro _
        refine ⟨(List.range (min dU n)).map
            (fun k => { j with status := st, progress := stageProg st k n }),
          { j with status := st, progress := stageProg st (min dU n) n },
          { j with
              status := .failed,
              progress := stageProg st (min dU n) n,
              error := some (kind, msg) }, ?_, rfl, by simp, rfl⟩
        rw [stageSnaps_split, List.append_assoc]
        rfl

theorem stagePlan_aligned (p : Plan) : alignedFrom 0 (stagePlan p) := by
  simp only [stagePlan, alignedFrom, bandLo, bandHi]
  norm_num

theorem stagePlan_statusAligned (p : Plan) :
    statusAligned StatusKind.pending (stagePlan p) := by
  simp only [stagePlan, statusAligned]
  exact ⟨SpecStep.pending_transcribing, rfl, SpecStep.transcribing_finding, rfl,
    SpecStep.finding_cropping, rfl, SpecStep.cropping_rendering, rfl,
    SpecStep.rendering_completed⟩

/-- C1: over the sequence of job states persisted from creation to the
terminal state, progress is a natural number bounded by 100 and
monotonically non-decreasing (writes are serialized per job, so this is
the sequence any poller observes). -/
theorem run_progress_monotone (p : Plan) :
    List.Chain' (fun a b : Job => a.progress ≤ b.progress) (run p) ∧
    ∀ x ∈ run p, x.progress ≤ 100 := by
  obtain ⟨hne, hP, hB, hS, hD, hE, hF⟩ :=
    runFrom_facts p.outputPath (stagePlan p) pendingJob (stagePlan_aligned p)
      (stagePlan_statusAligned p) rfl rfl
  refine ⟨?_, ?_⟩
  · rw [run]
    exact hP
  · intro x hx
    rw [run, List.mem_cons] at hx
    rcases hx with hx | hx
    · subst hx
      norm_num [pendingJob]
    · exact hB x hx

/-- Witness for C1: a four-stage all-success plan; the chain holds on
its trace and the pending snapshot is within bounds. -/
theorem run_progress_monotone_witness :
    List.Chain' (fun a b : Job => a.progress ≤ b.progress)
      (run {
        transcribe := .success 2,
        findHook := .success 1,
        crop := .success 2,
        render := .success 2,
        outputPath := "out.mp4" }) ∧
    pendingJob.progress ≤ 100 :=
  ⟨(run_progress_monotone {
        transcribe := .success 2,
        findHook := .success 1,
        crop := .success 2,
        render := .success 2,
        outputPath := "out.mp4" }).1,
   (run_progress_monotone {
        transcribe := .success 2,
        findHook := .success 1,
        crop := .success 2,
        render := .success 2,
        outputPath := "out.mp4" }).2
     pendingJob (List.mem_cons_self _ _)⟩

/-- C2: the only statuses are the seven listed; along any run the
status only stays put or takes a state-machine step; every
state-machine step is strictly forward or moves a non-terminal state to
failed; nothing leaves completed or failed; and a failed snapshot
always carries an error kind from the enumerated set with a message. -/
theorem run_status_machine (p : Plan) :
    (∀ s : StatusKind, s = .pending ∨ s = .transcribing ∨ s = .finding_hook ∨
      s = .cropping ∨ s = .rendering ∨ s = .completed ∨ s = .failed) ∧
    List.Chain' (fun a b : Job => a.status = b.status ∨ SpecStep a.status b.status)
      (run p) ∧
    (∀ s t : StatusKind, SpecStep s t →
      (t = .failed ∧ isTerminal s = false) ∨ stageIdx t = stageIdx s + 1) ∧
    (∀ t : StatusKind, ¬ SpecStep .completed t ∧ ¬ SpecStep .failed t) ∧
    (∀ x ∈ run p, x.status = .failed → ∃ k m, x.error = some (k, m)) := by
  obtain ⟨hne, hP, hB, hS, hD, hE, hF⟩ :=
    runFrom_facts p.outputPath (stagePlan p) pendingJob (stagePlan_aligned p)
      (stagePlan_statusAligned p) rfl rfl
  refine ⟨?_, ?_, ?_, ?_, ?_⟩
  · intro s
    cases s <;> simp
  · rw [run]
    exact hS
  · intro s t h
    cases h with
    | pending_transcribing => right; rfl
    | transcribing_finding => right; rfl
    | finding_cropping => right; rfl
    | cropping_rendering => right; rfl
    | rendering_completed => right; rfl
    | to_failed s hs => left; exact ⟨rfl, hs⟩
  · intro t
    constructor
    · intro h
      cases h with
      | to_failed _ hs => simp [isTerminal] at hs
    · intro h
      cases h with
      | to_failed _ hs => simp [isTerminal] at hs
  · intro x hx hxf
    rw [run, List.mem_cons] at hx
    rcases hx with hx | hx
    · subst hx
      simp [pendingJob] at hxf
    · have h2 := (hD x hx).2
      rw [hxf] at h2
      have hsome : x.error.isSome = true := h2.mpr rfl
      rw [Option.isSome_iff_exists] at hsome
      obtain ⟨v, hv⟩ := hsome
      exact ⟨v.1, v.2, by rw [hv]⟩

/-- Witness for C2: a plan whose transcription stage fails after one of
two units; the failed snapshot carries a transcription error. -/
theorem run_status_machine_witness :
    ((StatusKind.failed = .failed ∧ isTerminal .pending = false) ∨
      stageIdx .failed = stageIdx .pending + 1) ∧
    (∃ k m, (Job.mk .failed 12 none
        (some (.transcription_error, "timeout"))).error = some (k, m)) :=
  ⟨(run_status_machine {
        transcribe := .failure 1 2 .transcription_error "timeout",
        findHook := .success 1,
        crop := .success 1,
        render := .success 1,
        outputPath := "out.mp4" }).2.2.1 .pending .failed
      (SpecStep.to_failed .pending rfl),
   (run_status_machine {
        transcribe := .failure 1 2 .transcription_error "timeout",
        findHook := .success 1,
        crop := .success 1,
        render := .success 1,
        outputPath := "out.mp4" }).2.2.2.2
     (Job.mk .failed 12 none (some (.transcription_error, "timeout")))
     (by decide) rfl⟩

/-- C7: when run(job) terminates on a job consumed in pending: on
success the final state is completed with progress 100 and the output
artifact path set; on failure the final state is failed with the error
descriptor set and progress frozen at its last value. -/
theorem run_postconditions (p : Plan) :
    (planSucceeds p = true →
      (run p).getLast? =
        some { status := .completed, progress := 100,
               output_path := some p.outputPath, error := none }) ∧
    (planSucceeds p = false →
      ∃ pre l1 l2, run p = pre ++ [l1, l2] ∧ l2.status = .failed ∧
        l2.error.isSome ∧ l2.progress = l1.progress) := by
  obtain ⟨hne, hP, hB, hS, hD, hE, hF⟩ :=
    runFrom_facts p.outputPath (stagePlan p) pendingJob (stagePlan_aligned p)
      (stagePlan_statusAligned p) rfl rfl
  constructor
  · intro hs
    rw [run, ← List.singleton_append, List.getLast?_append_of_ne_nil _ hne]
    exact (hE hs).1
  · intro hf
    obtain ⟨pre, l1, l2, heq, h2, h3, h4⟩ := hF hf
    refine ⟨pendingJob :: pre, l1, l2, ?_, h2, h3, h4⟩
    rw [run, heq, List.cons_append]

/-- Witness for C7: the all-success plan reaches completed with the
path set; the failing plan ends in a failed state with frozen
progress. -/
theorem run_postconditions_witness :
    ((run {
        transcribe := .success 2,
        findHook := .success 1,
        crop := .success 2,
        render := .success 2,
        outputPath := "out.mp4" }).getLast? =
      some { status := .completed, progress := 100,
             output_path := some "out.mp4", error := none }) ∧
    (∃ pre l1 l2,
      run {
        transcribe := .failure 1 2 .transcription_error "timeout",
        findHook := .success 1,
        crop := .success 1,
        render := .success 1,
        outputPath := "out.mp4" } = pre ++ [l1, l2] ∧ l2.status = .failed ∧
        l2.error.isSome ∧ l2.progress = l1.progress) :=
  ⟨(run_postconditions {
        transcribe := .success 2,
        findHook := .success 1,
        crop := .success 2,
        render := .success 2,
        outputPath := "out.mp4" }).1
      (by decide),
   (run_postconditions {
        transcribe := .failure 1 2 .transcription_error "timeout",
        findHook := .success 1,
        crop := .success 1,
        render := .success 1,
        outputPath := "out.mp4" }).2 (by decide)⟩

/-- C8: in every per-job poll response, the output path field is
present exactly when the status is completed, and the error field is
present exactly when the status is failed. -/
theorem run_poll_fields (p : Plan) :
    ∀ x ∈ run p,
      ((pollJob x).output_path.isSome ↔ (pollJob x).status = .completed) ∧
      ((pollJob x).error.isSome ↔ (pollJob x).status = .failed) := by
  obtain ⟨hne, hP, hB, hS, hD, hE, hF⟩ :=
    runFrom_facts p.outputPath (stagePlan p) pendingJob (stagePlan_aligned p)
      (stagePlan_statusAligned p) rfl rfl
  intro x hx
  rw [run, List.mem_cons] at hx
  rcases hx with hx | hx
  · subst hx
    simp [pollJob, pendingJob]
  · exact ⟨(hD x hx).1, (hD x hx).2⟩

/-- Witness for C8: the poll response of the created pending job has
neither field. -/
theorem run_poll_fields_witness :
    ((pollJob pendingJob).output_path.isSome ↔
      (pollJob pendingJob).status = .completed) ∧
    ((pollJob pendingJob).error.isSome ↔ (pollJob pendingJob).status = .failed) :=
  run_poll_fields {
        transcribe := .success 2,
        findHook := .success 1,
        crop := .success 2,
        render := .success 2,
        outputPath := "out.mp4" }
    pendingJob (List.mem_cons_self _ _)

/-- C3: for every job that reaches failed, refund is called exactly
once and the owner's balance after the refund equals the balance before
the job was created: the charge at creation composed with the refund at
failure is the identity on the balance. -/
theorem failed_job_refund (p : Plan) (b0 cost b1 : Nat)
    (hch : charge b0 cost = some b1)
    (hf : ∃ x ∈ run p, x.status = .failed) :
    settle p b1 cost = (b0, 1) := by
  obtain ⟨hne, hP, hB, hS, hD, hE, hF⟩ :=
    runFrom_facts p.outputPath (stagePlan p) pendingJob (stagePlan_aligned p)
      (stagePlan_statusAligned p) rfl rfl
  obtain ⟨x, hx, hxf⟩ := hf
  have hns : planSucceeds p = false := by
    cases hps : planSucceeds p
    · rfl
    · exfalso
      rw [run, List.mem_cons] at hx
      rcases hx with hx | hx
      · subst hx
        simp [pendingJob] at hxf
      · exact (hE hps).2 x hx hxf
  unfold settle
  rw [hns]
  simp only [Bool.false_eq_true, if_false]
  unfold charge at hch
  by_cases hle : cost ≤ b0
  · rw [if_pos hle] at hch
    simp only [Option.some.injEq] at hch
    subst hch
    unfold refund
    rw [Nat.sub_add_cancel hle]
  · rw [if_neg hle] at hch
    simp at hch

/-- Witness for C3: a balance of 10 charged 3 at creation; the failing
plan triggers one refund and restores the balance to 10. -/
theorem failed_job_refund_witness :
    charge 10 3 = some 7 ∧
    settle {
        transcribe := .failure 1 2 .transcription_error "timeout",
        findHook := .success 1,
        crop := .success 1,
        render := .success 1,
        outputPath := "out.mp4" } 7 3 = (10, 1) :=
  ⟨by decide,
   failed_job_refund {
        transcribe := .failure 1 2 .transcription_error "timeout",
        findHook := .success 1,
        crop := .success 1,
        render := .success 1,
        outputPath := "out.mp4" } 10 3 7 (by decide)
     ⟨Job.mk .failed 12 none (some (.transcription_error, "timeout")),
      by decide, rfl⟩⟩

/-- C10: for non-negative seconds, `formatTime` returns
floor(seconds/60), a colon, and floor(seconds mod 60) zero-padded to
two digits. -/
theorem formatTime_eq_spec (seconds : ℚ) (h : 0 ≤ seconds) :
    formatTime seconds = specFormatTime seconds := by
  unfold formatTime specFormatTime jsMod jsTrunc
  have h60 : 0 ≤ seconds / 60 := by positivity
  rw [if_pos h60]

/-- Witness for C10: evaluation at 9.9 seconds, and the example values
from the claim. -/
theorem formatTime_eq_spec_witness :
    (0 : ℚ) ≤ 99 / 10 ∧ formatTime (99 / 10) = specFormatTime (99 / 10) :=
  ⟨by norm_num, formatTime_eq_spec (99 / 10) (by norm_num)⟩

end VideoShorts
